import Mathlib

/-!
Verification development for the Lumina model-driven API synthesis engine,
as documented in this repository (docs/server). The repository contains the
documentation of the engine, not the engine itself, so every definition below
is a shallow embedding reconstructed from the documented behaviour: query
compilation over allow-lists, tenant resolution, role-based validation rule
resolution, include authorization, the audit recorder and the nested
transaction executor.
-/

namespace Lumina

/-- Modelled from the spec: field values carried by request payloads and
persisted records (the engine itself is absent from this repository; the
documentation describes JSON scalar values, with an explicit null). -/
inductive Value where
  | null : Value
  | str (s : String) : Value
  | int (n : Int) : Value
  | bool (b : Bool) : Value
deriving DecidableEq, Repr

/-- A record row: an association list from field names to values. -/
abbrev Row := List (String × Value)

/-- Look up one generic association-list key. -/
def lookupKey (l : List (String × α)) (k : String) : Option α :=
  (l.find? (fun p => p.1 == k)).map Prod.snd

/-- Look up a field value on a row. -/
def lookupField (r : Row) (f : String) : Option Value :=
  lookupKey r f

/-- Modelled from the spec: the error taxonomy visible to API callers
(the documentation gives the status code and message payload of each
terminal failure; the handler code is not in this repository). -/
inductive ApiError where
  | notFound (message : String)
  | unauthenticated
  | forbidden (message : String)
  | validationFailed (errors : List (String × List String))
deriving DecidableEq, Repr

/-- HTTP status attached to each error class. -/
def ApiError.status : ApiError → Nat
  | .notFound _ => 404
  | .unauthenticated => 401
  | .forbidden _ => 403
  | .validationFailed _ => 422

/-! ## Query compiler -/

/-- One sort directive: a field name and a descending flag
(a leading minus sign in the request). -/
structure SortSpec where
  field : String
  descend : Bool
deriving DecidableEq, Repr

/-- Modelled from the spec: the per-model descriptor of what is queryable,
taken from the documented static model configuration (allowedFilters,
allowedSorts, defaultSort, allowedFields, allowedIncludes, allowedSearch). -/
structure ModelDescriptor where
  slug : String
  allowedFilters : List String
  allowedSorts : List String
  defaultSort : SortSpec
  allowedFields : List String
  allowedIncludes : List String
  allowedSearch : List String
deriving DecidableEq, Repr

/-- Parsed query directives of one read request. -/
structure QueryParams where
  filters : List (String × List String)
  sorts : List SortSpec
  search : Option String
  fieldsSel : Option (List String)
  includes : List String
deriving DecidableEq, Repr

/-- Render a value the way a URL filter value compares against it. -/
def valueToString : Value → String
  | .null => ""
  | .str s => s
  | .int n => toString n
  | .bool b => if b then "1" else "0"

/-- Modelled from the spec: filtering. Filter entries naming a field outside
the allowedFilters list are silently dropped; several values for one field
are OR combined, distinct fields are AND combined. -/
def applyFilters (d : ModelDescriptor) (fs : List (String × List String)) (rows : List Row) : List Row :=
  let live := fs.filter (fun p => d.allowedFilters.contains p.1)
  rows.filter (fun r => live.all (fun p =>
    match lookupField r p.1 with
    | some v => p.2.contains (valueToString v)
    | none => false))

/-- Check whether the first character list starts the second. -/
def charsStart : List Char → List Char → Bool
  | [], _ => true
  | _ :: _, [] => false
  | a :: as, b :: bs => a == b && charsStart as bs

/-- Check whether the first character list occurs inside the second. -/
def charsInside (needle : List Char) : List Char → Bool
  | [] => needle.isEmpty
  | b :: bs => charsStart needle (b :: bs) || charsInside needle bs

/-- Case-insensitive substring test. -/
def strContains (hay needle : String) : Bool :=
  charsInside needle.toLower.toList hay.toLower.toList

/-- Modelled from the spec: search filters rows by a case-insensitive
substring match OR combined over the allowedSearch fields. -/
def applySearch (d : ModelDescriptor) (term : Option String) (rows : List Row) : List Row :=
  match term with
  | none => rows
  | some t => rows.filter (fun r => d.allowedSearch.any (fun f =>
      match lookupField r f with
      | some v => strContains (valueToString v) t
      | none => false))

/-- Total comparison on values (rank of constructor, then payload order). -/
def cmpValue : Value → Value → Ordering
  | .null, .null => .eq
  | .null, _ => .lt
  | _, .null => .gt
  | .bool a, .bool b => compare a b
  | .bool _, _ => .lt
  | _, .bool _ => .gt
  | .int a, .int b => compare a b
  | .int _, _ => .lt
  | _, .int _ => .gt
  | .str a, .str b => compare a b

/-- Reverse an ordering for descending sort directives. -/
def flipOrd : Ordering → Ordering
  | .lt => .gt
  | .gt => .lt
  | .eq => .eq

/-- Lexicographic row comparison along a priority list of sort directives. -/
def cmpRows (specs : List SortSpec) (a b : Row) : Ordering :=
  match specs with
  | [] => .eq
  | s :: rest =>
    let c := cmpValue ((lookupField a s.field).getD .null) ((lookupField b s.field).getD .null)
    match (if s.descend then flipOrd c else c) with
    | .eq => cmpRows rest a b
    | o => o

/-- Boolean less-or-equal induced by the row comparison. -/
def rowLe (specs : List SortSpec) (a b : Row) : Bool :=
  match cmpRows specs a b with
  | .gt => false
  | _ => true

/-- Insert a row into an already sorted list. -/
def insertRow (le : Row → Row → Bool) (x : Row) : List Row → List Row
  | [] => [x]
  | y :: ys => if le x y then x :: y :: ys else y :: insertRow le x ys

/-- Insertion sort over rows. -/
def sortRows (le : Row → Row → Bool) : List Row → List Row
  | [] => []
  | x :: xs => insertRow le x (sortRows le xs)

/-- The sort directives surviving the allowedSorts allow-list. -/
def allowedSortsOf (d : ModelDescriptor) (ss : List SortSpec) : List SortSpec :=
  ss.filter (fun s => d.allowedSorts.contains s.field)

/-- Modelled from the spec: the effective sort order. Disallowed directives
are dropped; when none survive the descriptor default sort applies. -/
def effectiveSorts (d : ModelDescriptor) (ss : List SortSpec) : List SortSpec :=
  match allowedSortsOf d ss with
  | [] => [d.defaultSort]
  | l => l

/-- Modelled from the spec: field selection keeps only the requested fields
that are also in the allowedFields list; with no selection the row is kept
whole. -/
def selectFields (d : ModelDescriptor) (sel : Option (List String)) (r : Row) : Row :=
  match sel with
  | none => r
  | some fs => r.filter (fun kv => fs.contains kv.1 && d.allowedFields.contains kv.1)

/-- Modelled from the spec: the compiled read query — filter, search, sort,
then field selection (pagination metadata is orthogonal and omitted). -/
def applyQuery (d : ModelDescriptor) (p : QueryParams) (rows : List Row) : List Row :=
  (sortRows (rowLe (effectiveSorts d p.sorts)) (applySearch d p.search (applyFilters d p.filters rows))).map
    (selectFields d p.fieldsSel)

/-- The requested includes surviving the allowedIncludes allow-list. -/
def requestedIncludes (d : ModelDescriptor) (incs : List String) : List String :=
  incs.filter (fun i => d.allowedIncludes.contains i)

/-- Split a character list on a separator character (structural recursion,
accumulating the current segment reversed). -/
def splitCharAux (c : Char) : List Char → List Char → List (List Char)
  | [], acc => [acc.reverse]
  | x :: xs, acc =>
    if x == c then acc.reverse :: splitCharAux c xs []
    else splitCharAux c xs (x :: acc)

/-- Split a string on a separator character. -/
def splitStrOn (s : String) (c : Char) : List String :=
  (splitCharAux c s.data []).map String.mk

/-- Segments of a possibly dot-nested include. -/
def includeSegments (i : String) : List String :=
  splitStrOn i '.'

/-- Modelled from the spec: the first relation segment of any surviving
include that fails the viewAny-equivalent permission check. -/
def firstDenied (can : String → Bool) (incs : List String) : Option String :=
  incs.findSome? (fun i => (includeSegments i).find? (fun seg => !can seg))

/-- The documented authorization error for a denied include. -/
def forbiddenIncludeError (rel : String) : ApiError :=
  .forbidden ("You do not have permission to include " ++ rel ++ ".")

/-- The outcome of a read request: the compiled rows plus the relations
actually eager-loaded. -/
structure ReadResult where
  rows : List Row
  attached : List String
deriving DecidableEq, Repr

/-- Modelled from the spec: the read pipeline. Disallowed includes are
silently dropped; every surviving include must pass the viewAny-equivalent
check or the whole request aborts with a 403 naming the relation. -/
def processRead (d : ModelDescriptor) (can : String → Bool) (p : QueryParams) (rows : List Row) :
    Except ApiError ReadResult :=
  let incs := requestedIncludes d p.includes
  match firstDenied can incs with
  | some rel => .error (forbiddenIncludeError rel)
  | none => .ok ⟨applyQuery d p rows, incs⟩

/-- Drop every request attribute absent from the corresponding allow-list:
the sanitized request an inert parameter is equivalent to. -/
def sanitizeParams (d : ModelDescriptor) (p : QueryParams) : QueryParams where
  filters := p.filters.filter (fun q => d.allowedFilters.contains q.1)
  sorts := allowedSortsOf d p.sorts
  search := p.search
  fieldsSel := p.fieldsSel.map (fun fs => fs.filter (fun f => d.allowedFields.contains f))
  includes := requestedIncludes d p.includes

/-! ## Tenant scope resolver -/

/-- Tenant identity: a database id plus the configured external identifier
(id, slug or uuid column rendered as a string). -/
structure Organization where
  id : Nat
  identifier : String
deriving DecidableEq, Repr

/-- The documented error for both a missing organization and a
non-membership, deliberately identical. -/
def orgNotFoundError : ApiError :=
  .notFound "Organization not found"

/-- Modelled from the spec: the organization resolution middleware. It finds
the organization by its configured identifier column, then checks that the
requesting user holds some role in it; both failure causes answer with the
same not-found error so callers cannot enumerate tenants. -/
def resolveOrganization (orgs : List Organization) (hasRoleIn : Nat → Bool) (ident : String) :
    Except ApiError Organization :=
  match orgs.find? (fun o => o.identifier == ident) with
  | none => .error orgNotFoundError
  | some o => if hasRoleIn o.id then .ok o else .error orgNotFoundError

/-! ## Validation engine -/

/-- The three bare presence modifiers of the rule language. -/
def presenceModifiers : List String :=
  ["required", "nullable", "sometimes"]

/-- Modelled from the spec: the effective rule of one field of the resolved
layer. A bare presence modifier is prepended to the base rule; a value
containing the pipe separator replaces the base rule entirely. -/
def effectiveRule (base : List (String × String)) (field ruleVal : String) : String :=
  if presenceModifiers.contains ruleVal then
    match lookupKey base field with
    | some b => ruleVal ++ "|" ++ b
    | none => ruleVal
  else ruleVal

/-- Apply effectiveRule across a resolved associative rule layer. -/
def mergeLayer (base : List (String × String)) (layer : List (String × String)) :
    List (String × String) :=
  layer.map (fun p => (p.1, effectiveRule base p.1 p.2))

/-- Modelled from the spec: the shape of an action-specific rule set — a
plain field list, an associative field-to-rule map, or a role-keyed map of
associative rule maps with an optional star wildcard entry. -/
inductive ActionRules where
  | simple (fields : List String)
  | assoc (rules : List (String × String))
  | perRole (roleRules : List (String × List (String × String)))
deriving DecidableEq, Repr

/-- The documented authorization-class failure when a role has no defined
contract for the action. -/
def roleNoContractError : ApiError :=
  .forbidden "Your role has no defined contract for this action"

/-- Modelled from the spec: rule layer resolution. The simple format pulls
the base rule of each listed field; the associative format merges against the
base layer; the role-keyed format looks up the resolved role slug of the caller,
falls back to the star wildcard entry, and fails with an authorization-class
error when neither exists. -/
def resolveRuleLayer (base : List (String × String)) (roleSlug : Option String) :
    ActionRules → Except ApiError (List (String × String))
  | .simple fields => .ok (fields.map (fun f => (f, (lookupKey base f).getD "")))
  | .assoc rules => .ok (mergeLayer base rules)
  | .perRole m =>
    match roleSlug.bind (fun s => lookupKey m s) with
    | some rules => .ok (mergeLayer base rules)
    | none =>
      match lookupKey m "*" with
      | some rules => .ok (mergeLayer base rules)
      | none => .error roleNoContractError

/-- Tokens of one rule string, split on the pipe separator. -/
def ruleTokens (rule : String) : List String :=
  splitStrOn rule '|'

/-- Check one constraint token against a present non-null value. -/
def checkToken (v : Value) (tok : String) : Bool :=
  match splitStrOn tok ':' with
  | ["string"] => match v with | .str _ => true | _ => false
  | ["integer"] => match v with | .int _ => true | _ => false
  | ["boolean"] => match v with | .bool _ => true | _ => false
  | ["max", n] =>
    match n.toNat? with
    | some m =>
      match v with
      | .str s => s.length ≤ m
      | .int k => k ≤ (m : Int)
      | _ => true
    | none => true
  | ["min", n] =>
    match n.toNat? with
    | some m =>
      match v with
      | .str s => m ≤ s.length
      | .int k => (m : Int) ≤ k
      | _ => true
    | none => true
  | ["in", vals] => (splitStrOn vals ',').contains (valueToString v)
  | _ => true

/-- Modelled from the spec: per-field validation. An absent field passes
unless required; an explicit null passes only when nullable; a present value
must satisfy every constraint token of the resolved rule. -/
def checkFieldRule (rule : String) : Option Value → Bool
  | none => !((ruleTokens rule).contains "required")
  | some .null => (ruleTokens rule).contains "nullable"
  | some v => (ruleTokens rule).all (fun t => presenceModifiers.contains t || checkToken v t)

/-- Keep only the payload fields present in the resolved rule layer. -/
def filterPayload (layer : List (String × String)) (payload : Row) : Row :=
  payload.filter (fun kv => (lookupKey layer kv.1).isSome)

/-- The field-to-messages error map of a failed validation. -/
def fieldErrors (layer : List (String × String)) (payload : Row) : List (String × List String) :=
  layer.filterMap (fun p =>
    if checkFieldRule p.2 (lookupField payload p.1) then none
    else some (p.1, ["The " ++ p.1 ++ " field is invalid."]))

/-- Modelled from the spec: the write pipeline of a store or update action.
It resolves the rule layer for the role of the caller, silently drops payload
fields outside the layer, validates the filtered payload, and on success
hands exactly the filtered fields to persistence. -/
def processWrite (base : List (String × String)) (actionRules : ActionRules)
    (roleSlug : Option String) (payload : Row) : Except ApiError Row :=
  match resolveRuleLayer base roleSlug actionRules with
  | .error e => .error e
  | .ok layer =>
    let filtered := filterPayload layer payload
    let errs := fieldErrors layer filtered
    if errs.isEmpty then .ok filtered else .error (.validationFailed errs)

/-! ## Response serialization and column hiding -/

/-- The fixed base hidden set of the HidableColumns trait. -/
def baseHiddenColumns : List String :=
  ["password", "remember_token", "created_at", "updated_at", "deleted_at", "email_verified_at"]

/-- Remove the named columns from a row. -/
def stripColumns (cols : List String) (r : Row) : Row :=
  r.filter (fun kv => !cols.contains kv.1)

/-- Modelled from the spec: serialization of one record under the
HidableColumns trait — base hidden columns first, then the model-level
additional hidden columns, then the policy-level per-user hidden columns
(the policy receives none for an unauthenticated caller). -/
def serializeRecord (additional : List String) (policyHidden : Option Nat → List String)
    (user : Option Nat) (r : Row) : Row :=
  stripColumns (policyHidden user) (stripColumns additional (stripColumns baseHiddenColumns r))

/-! ## Audit recorder and entity store -/

/-- The five audited model events. -/
inductive AuditAction where
  | created
  | updated
  | deleted
  | force_deleted
  | restored
deriving DecidableEq, Repr

/-- One append-only audit log entry. -/
structure AuditEntry where
  model : String
  entityId : Nat
  action : AuditAction
  old_values : Option Row
  new_values : Option Row
deriving DecidableEq, Repr

/-- One persisted entity: model slug, primary key, fields, and the
soft-delete marker (true when trashed). -/
structure EntityRec where
  model : String
  id : Nat
  fields : Row
  trashed : Bool
deriving DecidableEq, Repr

/-- The storage state observable by re-querying: entities plus the audit
log, with the next fresh primary key. -/
structure Store where
  entities : List EntityRec
  nextId : Nat
  audit : List AuditEntry
deriving DecidableEq, Repr

/-- Per-model audit configuration: which models opt in and their extra
excluded fields. -/
structure AuditConfig where
  enabled : String → Bool
  extraExclude : String → List String

/-- The always-present default audit exclusions. -/
def defaultAuditExclude : List String :=
  ["password", "remember_token"]

/-- Every excluded field of one model. -/
def excludeFor (cfg : AuditConfig) (m : String) : List String :=
  defaultAuditExclude ++ cfg.extraExclude m

/-- Remove the excluded fields from a captured value map. -/
def stripExcluded (excl : List String) (r : Row) : Row :=
  r.filter (fun kv => !excl.contains kv.1)

/-- Modelled from the spec: the audit recorder hook. When the model opts in
it appends exactly one entry, stripping excluded fields from both captured
value maps; otherwise it is a no-op. -/
def recordAudit (cfg : AuditConfig) (m : String) (i : Nat) (a : AuditAction)
    (oldV newV : Option Row) (s : Store) : Store :=
  if cfg.enabled m then
    { s with audit := s.audit ++
        [⟨m, i, a, oldV.map (stripExcluded (excludeFor cfg m)), newV.map (stripExcluded (excludeFor cfg m))⟩] }
  else s

/-- Modelled from the spec: creation. The record gets the next fresh id,
is appended to storage, and an audit entry with action created, null
old_values and the full persisted field set as new_values is recorded. -/
def createEntity (cfg : AuditConfig) (m : String) (r : Row) (s : Store) : Store × EntityRec :=
  let i := s.nextId
  let fields : Row := ("id", Value.int (Int.ofNat i)) :: r
  let e : EntityRec := ⟨m, i, fields, false⟩
  let s1 : Store := { s with entities := s.entities ++ [e], nextId := i + 1 }
  (recordAudit cfg m i .created none (some fields) s1, e)

/-- Changed-fields diff of an update: the before map and the after map,
restricted to the fields whose value actually changes. -/
def rowDiff (oldR newData : Row) : Row × Row :=
  let changed := newData.filter (fun kv => !(lookupField oldR kv.1 == some kv.2))
  (changed.map (fun kv => (kv.1, (lookupField oldR kv.1).getD .null)), changed)

/-- Merge validated update data over the existing fields. -/
def mergeFields (oldR newData : Row) : Row :=
  oldR.map (fun kv =>
    match lookupField newData kv.1 with
    | some v => (kv.1, v)
    | none => kv) ++ newData.filter (fun kv => (lookupField oldR kv.1).isNone)

/-- Find a live (non-trashed) entity. -/
def findLive (s : Store) (m : String) (i : Nat) : Option EntityRec :=
  s.entities.find? (fun e => e.model == m && e.id == i && !e.trashed)

/-- Replace the fields of one entity in place. -/
def setFields (s : Store) (m : String) (i : Nat) (r : Row) : Store :=
  { s with entities := s.entities.map (fun e =>
      if e.model == m && e.id == i then { e with fields := r } else e) }

/-- Set or clear the soft-delete marker of one entity. -/
def setTrashed (s : Store) (m : String) (i : Nat) (b : Bool) : Store :=
  { s with entities := s.entities.map (fun e =>
      if e.model == m && e.id == i then { e with trashed := b } else e) }

/-- Modelled from the spec: update. Only changed fields are captured in the
audit entry, before values in old_values and after values in new_values. -/
def updateEntity (cfg : AuditConfig) (m : String) (i : Nat) (data : Row) (s : Store) :
    Except ApiError (Store × EntityRec) :=
  match findLive s m i with
  | none => .error (.notFound "Record not found")
  | some e =>
    let d := rowDiff e.fields data
    let newFields := mergeFields e.fields data
    let s1 := setFields s m i newFields
    .ok (recordAudit cfg m i .updated (some d.1) (some d.2) s1, { e with fields := newFields })

/-- Modelled from the spec: soft delete. The entity is marked trashed and
the audit entry captures the full field set in old_values with null
new_values. -/
def softDeleteEntity (cfg : AuditConfig) (m : String) (i : Nat) (s : Store) :
    Except ApiError (Store × EntityRec) :=
  match findLive s m i with
  | none => .error (.notFound "Record not found")
  | some e =>
    .ok (recordAudit cfg m i .deleted (some e.fields) none (setTrashed s m i true), e)

/-- Modelled from the spec: force delete removes the entity permanently and
captures the full field set in old_values with null new_values. -/
def forceDeleteEntity (cfg : AuditConfig) (m : String) (i : Nat) (s : Store) :
    Except ApiError (Store × EntityRec) :=
  match s.entities.find? (fun e => e.model == m && e.id == i) with
  | none => .error (.notFound "Record not found")
  | some e =>
    let s1 : Store := { s with entities := s.entities.filter (fun x => !(x.model == m && x.id == i)) }
    .ok (recordAudit cfg m i .force_deleted (some e.fields) none s1, e)

/-- Modelled from the spec: restore clears the soft-delete marker and
captures the full field set in new_values with null old_values. -/
def restoreEntity (cfg : AuditConfig) (m : String) (i : Nat) (s : Store) :
    Except ApiError (Store × EntityRec) :=
  match s.entities.find? (fun e => e.model == m && e.id == i && e.trashed) with
  | none => .error (.notFound "Record not found")
  | some e =>
    .ok (recordAudit cfg m i .restored none (some e.fields) (setTrashed s m i false), e)

/-- One primitive storage operation, for stating audit-log invariants. -/
inductive StoreOp where
  | create (m : String) (r : Row)
  | update (m : String) (i : Nat) (r : Row)
  | softDelete (m : String) (i : Nat)
  | forceDelete (m : String) (i : Nat)
  | restore (m : String) (i : Nat)
deriving DecidableEq, Repr

/-- Apply one storage operation, leaving the store unchanged on failure. -/
def applyOp (cfg : AuditConfig) (s : Store) : StoreOp → Store
  | .create m r => (createEntity cfg m r s).1
  | .update m i r =>
    match updateEntity cfg m i r s with
    | .ok p => p.1
    | .error _ => s
  | .softDelete m i =>
    match softDeleteEntity cfg m i s with
    | .ok p => p.1
    | .error _ => s
  | .forceDelete m i =>
    match forceDeleteEntity cfg m i s with
    | .ok p => p.1
    | .error _ => s
  | .restore m i =>
    match restoreEntity cfg m i s with
    | .ok p => p.1
    | .error _ => s

/-- Apply a list of storage operations in order. -/
def applyOps (cfg : AuditConfig) (s : Store) (ops : List StoreOp) : Store :=
  ops.foldl (applyOp cfg) s

/-- The documented null-value discipline of one audit entry: old_values is
null only on creation and restoration, new_values only on deletion. -/
def entryOk (a : AuditEntry) : Prop :=
  (a.old_values = none → a.action = .created ∨ a.action = .restored) ∧
  (a.new_values = none → a.action = .deleted ∨ a.action = .force_deleted)

/-! ## Authorization layer -/

/-- Modelled from the spec: wildcard permission matching — exact
resource.action match, then resource.star, then the global star. -/
def hasPermission (perms : List String) (slug act : String) : Bool :=
  perms.contains (slug ++ "." ++ act) || perms.contains (slug ++ ".*") || perms.contains "*"

/-! ## Nested transaction executor -/

/-- A payload value of one nested operation: a literal, or a reference to a
field of the result of an earlier step. -/
inductive RefVal where
  | lit (v : Value)
  | ref (n : Nat) (path : String)
deriving DecidableEq, Repr

/-- One step of a nested operation batch. -/
structure NestedOperation where
  action : String
  model : String
  targetId : Option RefVal
  payload : List (String × RefVal)
deriving DecidableEq, Repr

/-- The batch-level validation failure for an unresolvable reference. -/
def refResolutionError (n : Nat) (path : String) : ApiError :=
  .validationFailed [("operations", ["Unresolvable reference " ++ toString n ++ "." ++ path])]

/-- Modelled from the spec: reference resolution over the append-only array
of results of strictly earlier steps. A step index beyond the produced
results or a missing field path is a deterministic validation failure,
never a null value. -/
def resolveRef (results : List Row) (n : Nat) (path : String) : Except ApiError Value :=
  match results[n]? with
  | none => .error (refResolutionError n path)
  | some r =>
    match lookupField r path with
    | none => .error (refResolutionError n path)
    | some v => .ok v

/-- Resolve every reference placeholder of the data payload of one step. -/
def resolvePayload (results : List Row) (p : List (String × RefVal)) : Except ApiError Row :=
  p.mapM (fun kv =>
    match kv.2 with
    | .lit v => .ok (kv.1, v)
    | .ref n path => (resolveRef results n path).map (fun v => (kv.1, v)))

/-- Resolve the target id of an update or delete step. -/
def resolveTargetId (results : List Row) : Option RefVal → Except ApiError Nat
  | none => .error (.validationFailed [("operations", ["Missing target id"])])
  | some (.lit (.int i)) =>
    if 0 ≤ i then .ok i.toNat else .error (.validationFailed [("operations", ["Invalid target id"])])
  | some (.lit _) => .error (.validationFailed [("operations", ["Invalid target id"])])
  | some (.ref n path) => do
    match ← resolveRef results n path with
    | .int i =>
      if 0 ≤ i then .ok i.toNat else .error (.validationFailed [("operations", ["Invalid target id"])])
    | _ => .error (.validationFailed [("operations", ["Invalid target id"])])

/-- Modelled from the spec: validation configuration of one registered
model — base rules plus the store and update action rule sets. -/
structure ModelValidation where
  base : List (String × String)
  storeRules : ActionRules
  updateRules : ActionRules

/-- The permission action checked for one nested action. -/
def actionPermissionOf : String → String
  | "create" => "store"
  | "update" => "update"
  | "delete" => "destroy"
  | a => a

/-- Modelled from the spec: execute one nested step against the running
store and the append-only results of earlier steps: authorize, resolve
references, validate, then mutate storage with its audit side effect. -/
def runStep (reg : String → Option ModelValidation) (acfg : AuditConfig) (perms : List String)
    (roleSlug : Option String) (acc : Store × List Row) (op : NestedOperation) :
    Except ApiError (Store × List Row) :=
  if !hasPermission perms op.model (actionPermissionOf op.action) then
    .error (.forbidden ("You do not have permission to " ++ op.action ++ " " ++ op.model ++ "."))
  else
    match reg op.model with
    | none => .error (.notFound "Unknown model")
    | some mv =>
      match op.action with
      | "create" => do
        let data ← resolvePayload acc.2 op.payload
        let validated ← processWrite mv.base mv.storeRules roleSlug data
        let p := createEntity acfg op.model validated acc.1
        .ok (p.1, acc.2 ++ [p.2.fields])
      | "update" => do
        let i ← resolveTargetId acc.2 op.targetId
        let data ← resolvePayload acc.2 op.payload
        let validated ← processWrite mv.base mv.updateRules roleSlug data
        let p ← updateEntity acfg op.model i validated acc.1
        .ok (p.1, acc.2 ++ [p.2.fields])
      | "delete" => do
        let i ← resolveTargetId acc.2 op.targetId
        let p ← softDeleteEntity acfg op.model i acc.1
        .ok (p.1, acc.2 ++ [p.2.fields])
      | _ => .error (.validationFailed [("operations", ["Unknown action"])])

/-- Run the whole batch sequentially against the store (the raw, not yet
transaction-wrapped execution). -/
def runOpsRaw (reg : String → Option ModelValidation) (acfg : AuditConfig) (perms : List String)
    (roleSlug : Option String) (s : Store) (ops : List NestedOperation) :
    Except ApiError (Store × List Row) :=
  ops.foldlM (runStep reg acfg perms roleSlug) (s, [])

/-- Batch-level configuration of the nested endpoint. -/
structure NestedConfig where
  maxOperations : Nat
  allowedModels : Option (List String)
deriving DecidableEq, Repr

/-- Check the allowed-models pre-condition of a batch. -/
def modelsAllowed (ncfg : NestedConfig) (ops : List NestedOperation) : Bool :=
  match ncfg.allowedModels with
  | none => true
  | some ms => ops.all (fun op => ms.contains op.model)

/-- Modelled from the spec: the nested endpoint. Batch-level pre-checks run
before touching storage; then the whole batch executes inside a single
transaction scope, so any step failure rolls every effect back and the
caller observes the original store next to the error. -/
def executeNestedBatch (ncfg : NestedConfig) (reg : String → Option ModelValidation)
    (acfg : AuditConfig) (perms : List String) (roleSlug : Option String)
    (s : Store) (ops : List NestedOperation) : Store × Except ApiError (List Row) :=
  if ops.length > ncfg.maxOperations then
    (s, .error (.validationFailed [("operations", ["Too many operations"])]))
  else if !modelsAllowed ncfg ops then
    (s, .error (.validationFailed [("operations", ["Model not allowed"])]))
  else
    match runOpsRaw reg acfg perms roleSlug s ops with
    | .ok p => (p.1, .ok p.2)
    | .error e => (s, .error e)

/-! ## Concrete example inputs -/

/-- Example descriptor matching the documented scenario: posts filter by
status, sort by title or created_at, default sort newest first. -/
def postsDescriptor : ModelDescriptor :=
  ⟨"posts", ["status"], ["title", "created_at"], ⟨"created_at", true⟩,
   ["id", "title"], ["user", "comments"], ["title"]⟩

/-- Example row of the posts model. -/
def exampleRowA : Row :=
  [("id", Value.int 1), ("title", Value.str "b"), ("status", Value.str "draft")]

/-- Second example row of the posts model. -/
def exampleRowB : Row :=
  [("id", Value.int 2), ("title", Value.str "a"), ("status", Value.str "published")]

/-- Example read request with a disallowed filter field, a disallowed sort
field, a disallowed selected field and a disallowed include. -/
def exampleParams : QueryParams :=
  ⟨[("unknown", ["x"])], [⟨"nope", false⟩], none, some ["id", "bogus"], ["user", "secret_rel"]⟩

/-- Audit configuration enabling every model with no extra exclusions. -/
def exampleAuditConfig : AuditConfig :=
  ⟨fun _ => true, fun _ => []⟩

/-- The empty store. -/
def emptyStore : Store :=
  ⟨[], 1, []⟩

/-- Example registry: blogs and posts both require a title on store. -/
def exampleRegistry : String → Option ModelValidation := fun m =>
  if m == "blogs" then
    some ⟨[("title", "string")], .assoc [("title", "required")], .assoc []⟩
  else if m == "posts" then
    some ⟨[("title", "string"), ("blog_id", "integer")],
      .assoc [("title", "required"), ("blog_id", "nullable")], .assoc []⟩
  else none

/-- Example batch from the documentation: create a blog, create a post
referencing it, then create a post missing its required title. -/
def exampleBatch : List NestedOperation :=
  [⟨"create", "blogs", none, [("title", .lit (.str "T"))]⟩,
   ⟨"create", "posts", none, [("title", .lit (.str "P")), ("blog_id", .ref 0 "id")]⟩,
   ⟨"create", "posts", none, []⟩]

/-! ## Helper lemmas -/

theorem filter_filter_self (p : α → Bool) (l : List α) :
    (l.filter p).filter p = l.filter p := by
  induction l with
  | nil => rfl
  | cons a l ih =>
    cases h : p a <;> simp [List.filter_cons, h, ih]

theorem contains_filter [BEq α] [LawfulBEq α] (q : α → Bool) (l : List α) (x : α) :
    (l.filter q).contains x = (l.contains x && q x) := by
  induction l with
  | nil => simp
  | cons a l ih =>
    cases hq : q a <;> cases hx : x == a <;>
      simp_all [List.filter_cons, List.contains_cons]

theorem lookupField_stripColumns_of_mem (cols : List String) (r : Row) (f : String)
    (hf : cols.contains f = true) : lookupField (stripColumns cols r) f = none := by
  induction r with
  | nil => rfl
  | cons kv r ih =>
    by_cases hk : cols.contains kv.1 = true
    · have hdrop : stripColumns cols (kv :: r) = stripColumns cols r := by
        unfold stripColumns
        apply List.filter_cons_of_neg
        rw [hk]
        decide
      rw [hdrop]
      exact ih
    · have hkf : cols.contains kv.1 = false := by
        cases h2 : cols.contains kv.1
        · rfl
        · exact absurd h2 hk
      have hne : (kv.1 == f) = false := by
        cases hbe : kv.1 == f
        · rfl
        · rw [eq_of_beq hbe, hf] at hkf
          simp at hkf
      have hkeep : stripColumns cols (kv :: r) = kv :: stripColumns cols r := by
        unfold stripColumns
        apply List.filter_cons_of_pos
        rw [hkf]
        rfl
      rw [hkeep]
      simp only [lookupField, lookupKey, List.find?_cons, hne] at ih ⊢
      exact ih

theorem lookupKey_none_filter (p : String × α → Bool) (l : List (String × α)) (f : String)
    (h : lookupKey l f = none) : lookupKey (l.filter p) f = none := by
  induction l with
  | nil => rfl
  | cons kv l ih =>
    simp only [lookupKey, List.find?_cons] at h
    cases hk : kv.1 == f
    · simp only [hk] at h
      cases hp : p kv
      · simpa [List.filter_cons, hp] using ih (by simpa [lookupKey] using h)
      · simp only [List.filter_cons, hp, cond_true]
        simpa [lookupKey, List.find?_cons, hk] using ih (by simpa [lookupKey] using h)
    · simp [hk] at h

/-! ## Claim theorems -/

/-- C3: an authenticated request naming a missing organization and one
naming an existing organization the user holds no role in produce the very
same not-found error value (same constructor, status and message), so the
two causes are indistinguishable to the caller. -/
theorem tenant_errors_indistinguishable
    (orgs1 : List Organization) (hr1 : Nat → Bool) (id1 : String)
    (orgs2 : List Organization) (hr2 : Nat → Bool) (id2 : String) (o : Organization)
    (h1 : orgs1.find? (fun x => x.identifier == id1) = none)
    (h2 : orgs2.find? (fun x => x.identifier == id2) = some o)
    (h3 : hr2 o.id = false) :
    resolveOrganization orgs1 hr1 id1 = resolveOrganization orgs2 hr2 id2 ∧
    resolveOrganization orgs1 hr1 id1 = .error orgNotFoundError ∧
    orgNotFoundError = .notFound "Organization not found" ∧
    orgNotFoundError.status = 404 := by
  unfold resolveOrganization
  rw [h1, h2]
  simp [h3, orgNotFoundError, ApiError.status]

theorem tenant_errors_indistinguishable_witness :
    resolveOrganization [] (fun _ => true) "acme" =
      resolveOrganization [⟨7, "acme"⟩] (fun _ => false) "acme" ∧
    resolveOrganization [] (fun _ => true) "acme" = .error orgNotFoundError ∧
    orgNotFoundError = .notFound "Organization not found" ∧
    orgNotFoundError.status = 404 :=
  tenant_errors_indistinguishable [] (fun _ => true) "acme"
    [⟨7, "acme"⟩] (fun _ => false) "acme" ⟨7, "acme"⟩ rfl rfl rfl

/-- C5: role-keyed rule resolution looks up the role slug of the caller, falls
back to the star wildcard entry when the slug has no entry, and when neither
exists fails with the authorization-class error, which is not a validation
error and not a silent pass-through. -/
theorem role_rule_resolution (base : List (String × String))
    (m : List (String × List (String × String))) (slug : String) :
    (∀ r, lookupKey m slug = some r →
      resolveRuleLayer base (some slug) (.perRole m) = .ok (mergeLayer base r)) ∧
    (∀ w, lookupKey m slug = none → lookupKey m "*" = some w →
      resolveRuleLayer base (some slug) (.perRole m) = .ok (mergeLayer base w)) ∧
    (lookupKey m slug = none → lookupKey m "*" = none →
      resolveRuleLayer base (some slug) (.perRole m) = .error roleNoContractError ∧
      roleNoContractError.status = 403 ∧
      ∀ errs, roleNoContractError ≠ .validationFailed errs) := by
  refine ⟨?_, ?_, ?_⟩
  · intro r hr
    simp [resolveRuleLayer, hr]
  · intro w hs hw
    simp [resolveRuleLayer, hs, hw]
  · intro hs hw
    refine ⟨by simp [resolveRuleLayer, hs, hw], rfl, ?_⟩
    intro errs h
    exact ApiError.noConfusion h

theorem role_rule_resolution_witness :
    resolveRuleLayer [("title", "string")] (some "viewer")
        (.perRole [("admin", [("title", "required")])]) = .error roleNoContractError ∧
    roleNoContractError.status = 403 :=
  ⟨((role_rule_resolution [("title", "string")] [("admin", [("title", "required")])]
      "viewer").2.2 rfl rfl).1,
   ((role_rule_resolution [("title", "string")] [("admin", [("title", "required")])]
      "viewer").2.2 rfl rfl).2.1⟩

/-- C7: a reference placeholder of step i resolves only against the results
array of the strictly earlier steps (whose length is i): it succeeds exactly
when the step index is below i and the referenced result carries the field
path, and a reference to the current step, a later step or a missing result
is the deterministic validation error, never a null value. -/
theorem ref_strictly_earlier (results : List Row) (i n : Nat) (path : String)
    (hlen : results.length = i) :
    (i ≤ n → resolveRef results n path = .error (refResolutionError n path)) ∧
    (∀ v, resolveRef results n path = .ok v ↔
      (n < i ∧ ∃ r, results[n]? = some r ∧ lookupField r path = some v)) := by
  constructor
  · intro hni
    have : results[n]? = none := List.getElem?_eq_none (by omega)
    simp [resolveRef, this]
  · intro v
    constructor
    · intro hok
      unfold resolveRef at hok
      cases hr : results[n]? with
      | none => simp [hr] at hok
      | some r =>
        have hlt : n < results.length := by
          rcases List.getElem?_eq_some_iff.mp hr with ⟨h, _⟩
          exact h
        cases hf : lookupField r path with
        | none => simp [hr, hf] at hok
        | some v2 =>
          simp only [hr, hf] at hok
          cases hok
          exact ⟨by omega, r, rfl, hf⟩
    · rintro ⟨hni, r, hr, hf⟩
      simp [resolveRef, hr, hf]

theorem ref_strictly_earlier_witness :
    (2 ≤ 2 → resolveRef [[("id", Value.int 1)], [("id", Value.int 2)]] 2 "id" =
      .error (refResolutionError 2 "id")) ∧
    (∀ v, resolveRef [[("id", Value.int 1)], [("id", Value.int 2)]] 2 "id" = .ok v ↔
      (2 < 2 ∧ ∃ r, ([[("id", Value.int 1)], [("id", Value.int 2)]] : List Row)[2]? = some r ∧
        lookupField r "id" = some v)) :=
  ref_strictly_earlier [[("id", Value.int 1)], [("id", Value.int 2)]] 2 2 "id" rfl

/-- C9: the effective rule of a field of the resolved layer prepends a bare
presence modifier to the base rule of the field, while a value containing the
pipe separator replaces the base rule completely. -/
theorem presence_modifier_merge (base : List (String × String)) (field ruleVal b : String) :
    (presenceModifiers.contains ruleVal = true → lookupKey base field = some b →
      effectiveRule base field ruleVal = ruleVal ++ "|" ++ b) ∧
    (ruleVal.data.contains '|' = true → effectiveRule base field ruleVal = ruleVal) := by
  constructor
  · intro hp hb
    unfold effectiveRule
    rw [hp]
    simp [hb]
  · intro hc
    have hnp : presenceModifiers.contains ruleVal = false := by
      cases hq : presenceModifiers.contains ruleVal
      · rfl
      · have hmem : ruleVal ∈ presenceModifiers := by
          simpa using hq
        have hall : ∀ s ∈ presenceModifiers, s.data.contains '|' = false := by decide
        rw [hall ruleVal hmem] at hc
        simp at hc
    unfold effectiveRule
    rw [hnp]
    simp

theorem presence_modifier_merge_witness :
    effectiveRule [("title", "string|max:255")] "title" "required" = "required|string|max:255" ∧
    effectiveRule [("title", "string|max:255")] "title" "required|string|min:10" =
      "required|string|min:10" :=
  ⟨(presence_modifier_merge [("title", "string|max:255")] "title" "required"
      "string|max:255").1 (by decide) rfl,
   (presence_modifier_merge [("title", "string|max:255")] "title" "required|string|min:10"
      "string|max:255").2 (by decide)⟩

/-- C10: serialization under the HidableColumns trait strips the fixed base
hidden set first, before the model-level and policy-level hidden columns,
for every caller including the unauthenticated one, so a base hidden field
never appears in a serialized response. -/
theorem base_hidden_always_stripped (additional : List String)
    (policyHidden : Option Nat → List String) (user : Option Nat) (r : Row) (f : String)
    (hf : f ∈ baseHiddenColumns) :
    serializeRecord additional policyHidden user r =
      stripColumns (policyHidden user)
        (stripColumns additional (stripColumns baseHiddenColumns r)) ∧
    lookupField (serializeRecord additional policyHidden user r) f = none := by
  refine ⟨rfl, ?_⟩
  have h0 : lookupField (stripColumns baseHiddenColumns r) f = none :=
    lookupField_stripColumns_of_mem baseHiddenColumns r f (by simpa using hf)
  have h1 : lookupField (stripColumns additional (stripColumns baseHiddenColumns r)) f = none :=
    lookupKey_none_filter _ _ f h0
  exact lookupKey_none_filter _ _ f h1

theorem base_hidden_always_stripped_witness :
    serializeRecord ["api_token"] (fun _ => ["email"]) none
        [("id", Value.int 1), ("password", Value.str "secret")] =
      stripColumns ((fun _ : Option Nat => ["email"]) none)
        (stripColumns ["api_token"]
          (stripColumns baseHiddenColumns
            [("id", Value.int 1), ("password", Value.str "secret")])) ∧
    lookupField (serializeRecord ["api_token"] (fun _ => ["email"]) none
      [("id", Value.int 1), ("password", Value.str "secret")]) "password" = none :=
  base_hidden_always_stripped ["api_token"] (fun _ => ["email"]) none
    [("id", Value.int 1), ("password", Value.str "secret")] "password" (by decide)

/-- C4: a store or update payload field not present in the resolved rule
layer is dropped before validation — on success the persisted field set is a
subset of the field set of the layer, and the presence of an unlisted field never
changes the outcome of the request. -/
theorem unlisted_fields_dropped (base : List (String × String)) (ar : ActionRules)
    (role : Option String) (payload : Row) :
    (∀ out, processWrite base ar role payload = .ok out →
      ∃ layer, resolveRuleLayer base role ar = .ok layer ∧
        ∀ kv ∈ out, (lookupKey layer kv.1).isSome = true) ∧
    (∀ f v layer, resolveRuleLayer base role ar = .ok layer → lookupKey layer f = none →
      processWrite base ar role ((f, v) :: payload) = processWrite base ar role payload) := by
  constructor
  · intro out hok
    unfold processWrite at hok
    cases hl : resolveRuleLayer base role ar with
    | error e => rw [hl] at hok; cases hok
    | ok layer =>
      rw [hl] at hok
      dsimp only at hok
      refine ⟨layer, rfl, ?_⟩
      by_cases he : (fieldErrors layer (filterPayload layer payload)).isEmpty = true
      · rw [if_pos he] at hok
        cases hok
        intro kv hkv
        exact (List.mem_filter.mp hkv).2
      · rw [if_neg he] at hok
        cases hok
  · intro f v layer hl hf
    have hdrop : filterPayload layer ((f, v) :: payload) = filterPayload layer payload := by
      unfold filterPayload
      apply List.filter_cons_of_neg
      rw [hf]
      decide
    unfold processWrite
    rw [hl]
    dsimp only
    rw [hdrop]

/-- C1: the nested batch endpoint is all-or-nothing — whenever the request
answers with any error (batch pre-check, authorization, validation,
reference resolution or storage failure at any step), the observable store
is exactly the store before the request: no entity and no audit entry
changes. -/
theorem nested_batch_atomicity (ncfg : NestedConfig) (reg : String → Option ModelValidation)
    (acfg : AuditConfig) (perms : List String) (role : Option String)
    (s : Store) (ops : List NestedOperation) (e : ApiError)
    (h : (executeNestedBatch ncfg reg acfg perms role s ops).2 = .error e) :
    (executeNestedBatch ncfg reg acfg perms role s ops).1 = s ∧
    (executeNestedBatch ncfg reg acfg perms role s ops).1.entities = s.entities ∧
    (executeNestedBatch ncfg reg acfg perms role s ops).1.audit = s.audit := by
  have hs : (executeNestedBatch ncfg reg acfg perms role s ops).1 = s := by
    unfold executeNestedBatch at h ⊢
    by_cases h1 : ops.length > ncfg.maxOperations
    · rw [if_pos h1]
    · rw [if_neg h1] at h ⊢
      by_cases h2 : (!modelsAllowed ncfg ops) = true
      · rw [if_pos h2]
      · rw [if_neg h2] at h ⊢
        cases hr : runOpsRaw reg acfg perms role s ops with
        | ok p =>
          rw [hr] at h
          dsimp only at h
          cases h
        | error e2 => rfl
  exact ⟨hs, by rw [hs], by rw [hs]⟩

/-! ## Query sanitization lemmas for C2 -/

theorem applyFilters_sanitize (d : ModelDescriptor) (fs : List (String × List String))
    (rows : List Row) :
    applyFilters d (fs.filter (fun q => d.allowedFilters.contains q.1)) rows =
      applyFilters d fs rows := by
  simp only [applyFilters]
  rw [filter_filter_self]

theorem effectiveSorts_sanitize (d : ModelDescriptor) (ss : List SortSpec) :
    effectiveSorts d (allowedSortsOf d ss) = effectiveSorts d ss := by
  unfold effectiveSorts
  rw [show allowedSortsOf d (allowedSortsOf d ss) = allowedSortsOf d ss from
    filter_filter_self _ ss]

theorem selectFields_sanitize (d : ModelDescriptor) (sel : Option (List String)) (r : Row) :
    selectFields d (sel.map (fun fs => fs.filter (fun f => d.allowedFields.contains f))) r =
      selectFields d sel r := by
  cases sel with
  | none => rfl
  | some fs =>
    simp only [Option.map_some, selectFields]
    apply List.filter_congr
    intro kv _
    rw [contains_filter]
    cases h1 : fs.contains kv.1 <;> cases h2 : d.allowedFields.contains kv.1 <;> rfl

theorem applyQuery_sanitize (d : ModelDescriptor) (p : QueryParams) (rows : List Row) :
    applyQuery d (sanitizeParams d p) rows = applyQuery d p rows := by
  unfold applyQuery sanitizeParams
  rw [applyFilters_sanitize, effectiveSorts_sanitize]
  have hsel : selectFields d (p.fieldsSel.map (fun fs =>
      fs.filter (fun f => d.allowedFields.contains f))) = selectFields d p.fieldsSel :=
    funext (selectFields_sanitize d p.fieldsSel)
  rw [hsel]

/-- C2: a read request is compiled identically to the same request with
every filter, sort, include or field-selection attribute outside the
corresponding allow-list removed — disallowed attributes are inert, never
an error — and when every requested sort is disallowed the descriptor
default sort applies, exactly as with no sort at all. -/
theorem disallowed_params_inert (d : ModelDescriptor) (can : String → Bool) (p : QueryParams)
    (rows : List Row) :
    processRead d can (sanitizeParams d p) rows = processRead d can p rows ∧
    (∀ ss, allowedSortsOf d ss = [] → effectiveSorts d ss = [d.defaultSort]) ∧
    effectiveSorts d [] = [d.defaultSort] := by
  refine ⟨?_, ?_, rfl⟩
  · unfold processRead
    have hinc : requestedIncludes d (sanitizeParams d p).includes =
        requestedIncludes d p.includes := filter_filter_self _ _
    rw [hinc, applyQuery_sanitize]
  · intro ss h
    unfold effectiveSorts
    rw [h]

/-! ## First-denied include lemma for C6 -/

theorem firstDenied_finds (can : String → Bool) :
    ∀ (incs : List String) (i : String), i ∈ incs →
      ∀ seg ∈ includeSegments i, can seg = false →
        ∃ rel, firstDenied can incs = some rel ∧ can rel = false ∧
          ∃ j ∈ incs, rel ∈ includeSegments j := by
  intro incs
  induction incs with
  | nil =>
    intro i hi
    cases hi
  | cons a l ih =>
    intro i hi seg hs hc
    unfold firstDenied
    rw [List.findSome?_cons]
    cases hfa : (includeSegments a).find? (fun x => !can x) with
    | some rel =>
      refine ⟨rel, by simp [hfa], ?_, a, List.mem_cons_self a l, List.mem_of_find?_eq_some hfa⟩
      have hp := List.find?_some hfa
      cases hcr : can rel
      · rfl
      · rw [hcr] at hp
        cases hp
    | none =>
      rcases List.mem_cons.mp hi with rfl | hi2
      · exfalso
        have hnone := List.find?_eq_none.mp hfa seg hs
        rw [hc] at hnone
        exact hnone rfl
      · rcases ih i hi2 seg hs hc with ⟨rel, hrel, hcrel, j, hj, hjs⟩
        refine ⟨rel, ?_, hcrel, j, List.mem_cons_of_mem a hj, hjs⟩
        unfold firstDenied at hrel
        simp [hfa, hrel]

/-- C6: when a requested include is in the allow-list but any of its
relation segments fails the viewAny-equivalent check, the whole read request
is rejected with the authorization error naming a failed relation of the
surviving includes — the include is never silently dropped. -/
theorem include_auth_rejects (d : ModelDescriptor) (can : String → Bool) (p : QueryParams)
    (rows : List Row) (inc : String) (hinc : inc ∈ p.includes)
    (hallow : d.allowedIncludes.contains inc = true)
    (seg : String) (hseg : seg ∈ includeSegments inc) (hcan : can seg = false) :
    ∃ rel, processRead d can p rows = .error (forbiddenIncludeError rel) ∧
      can rel = false ∧ ∃ j ∈ requestedIncludes d p.includes, rel ∈ includeSegments j := by
  have hmem : inc ∈ requestedIncludes d p.includes :=
    List.mem_filter.mpr ⟨hinc, hallow⟩
  rcases firstDenied_finds can (requestedIncludes d p.includes) inc hmem seg hseg hcan with
    ⟨rel, hrel, hc, hj⟩
  refine ⟨rel, ?_, hc, hj⟩
  unfold processRead
  dsimp only
  rw [hrel]

/-! ## Audit recorder lemmas for C8 -/

theorem mem_recordAudit (cfg : AuditConfig) (m : String) (i : Nat) (act : AuditAction)
    (oldV newV : Option Row) (s : Store) (a : AuditEntry)
    (ha : a ∈ (recordAudit cfg m i act oldV newV s).audit) :
    a ∈ s.audit ∨ (a.action = act ∧
      a.old_values = oldV.map (stripExcluded (excludeFor cfg m)) ∧
      a.new_values = newV.map (stripExcluded (excludeFor cfg m))) := by
  unfold recordAudit at ha
  split at ha
  · rcases List.mem_append.mp ha with h | h
    · exact Or.inl h
    · rcases List.mem_singleton.mp h with rfl
      exact Or.inr ⟨rfl, rfl, rfl⟩
  · exact Or.inl ha

theorem applyOp_entryOk (cfg : AuditConfig) (s : Store) (op : StoreOp) (a : AuditEntry)
    (ha : a ∈ (applyOp cfg s op).audit) : a ∈ s.audit ∨ entryOk a := by
  cases op with
  | create m r =>
    simp only [applyOp, createEntity] at ha
    rcases mem_recordAudit _ _ _ _ _ _ _ _ ha with h | ⟨hact, hold, hnew⟩
    · exact Or.inl h
    · refine Or.inr ⟨fun _ => Or.inl hact, fun hn => ?_⟩
      rw [hnew] at hn
      simp at hn
  | update m i r =>
    simp only [applyOp] at ha
    cases hu : updateEntity cfg m i r s with
    | error e => rw [hu] at ha; exact Or.inl ha
    | ok p =>
      rw [hu] at ha
      unfold updateEntity at hu
      cases hf : findLive s m i with
      | none => rw [hf] at hu; cases hu
      | some e0 =>
        rw [hf] at hu
        dsimp only at hu
        cases hu
        rcases mem_recordAudit _ _ _ _ _ _ _ _ ha with h | ⟨hact, hold, hnew⟩
        · exact Or.inl h
        · refine Or.inr ⟨fun hn => ?_, fun hn => ?_⟩
          · rw [hold] at hn; simp at hn
          · rw [hnew] at hn; simp at hn
  | softDelete m i =>
    simp only [applyOp] at ha
    cases hu : softDeleteEntity cfg m i s with
    | error e => rw [hu] at ha; exact Or.inl ha
    | ok p =>
      rw [hu] at ha
      unfold softDeleteEntity at hu
      cases hf : findLive s m i with
      | none => rw [hf] at hu; cases hu
      | some e0 =>
        rw [hf] at hu
        dsimp only at hu
        cases hu
        rcases mem_recordAudit _ _ _ _ _ _ _ _ ha with h | ⟨hact, hold, hnew⟩
        · exact Or.inl h
        · refine Or.inr ⟨fun hn => ?_, fun _ => Or.inl hact⟩
          rw [hold] at hn
          simp at hn
  | forceDelete m i =>
    simp only [applyOp] at ha
    cases hu : forceDeleteEntity cfg m i s with
    | error e => rw [hu] at ha; exact Or.inl ha
    | ok p =>
      rw [hu] at ha
      unfold forceDeleteEntity at hu
      cases hf : s.entities.find? (fun e => e.model == m && e.id == i) with
      | none => rw [hf] at hu; cases hu
      | some e0 =>
        rw [hf] at hu
        dsimp only at hu
        cases hu
        rcases mem_recordAudit _ _ _ _ _ _ _ _ ha with h | ⟨hact, hold, hnew⟩
        · exact Or.inl h
        · refine Or.inr ⟨fun hn => ?_, fun _ => Or.inr hact⟩
          rw [hold] at hn
          simp at hn
  | restore m i =>
    simp only [applyOp] at ha
    cases hu : restoreEntity cfg m i s with
    | error e => rw [hu] at ha; exact Or.inl ha
    | ok p =>
      rw [hu] at ha
      unfold restoreEntity at hu
      cases hf : s.entities.find? (fun e => e.model == m && e.id == i && e.trashed) with
      | none => rw [hf] at hu; cases hu
      | some e0 =>
        rw [hf] at hu
        dsimp only at hu
        cases hu
        rcases mem_recordAudit _ _ _ _ _ _ _ _ ha with h | ⟨hact, hold, hnew⟩
        · exact Or.inl h
        · refine Or.inr ⟨fun _ => Or.inr hact, fun hn => ?_⟩
          rw [hnew] at hn
          simp at hn

theorem applyOps_entryOk (cfg : AuditConfig) (ops : List StoreOp) :
    ∀ s : Store, (∀ a ∈ s.audit, entryOk a) →
      ∀ a ∈ (applyOps cfg s ops).audit, entryOk a := by
  induction ops with
  | nil =>
    intro s h a ha
    exact h a ha
  | cons op ops ih =>
    intro s h a ha
    unfold applyOps at ha
    rw [List.foldl_cons] at ha
    refine ih (applyOp cfg s op) ?_ a ha
    intro b hb
    rcases applyOp_entryOk cfg s op b hb with h1 | h1
    · exact h b h1
    · exact h1

/-- C8: with auditing enabled, creating an entity appends exactly one
created entry with null old_values and new_values equal to the persisted
field set minus excluded fields; soft-deleting it then appends exactly one
deleted entry with old_values equal to the full persisted field set minus
excluded fields and null new_values; and every audit entry produced by any
sequence of storage operations has null old_values only on creation and
restoration and null new_values only on deletion. -/
theorem audit_round_trip (cfg : AuditConfig) (m : String) (r : Row) (s : Store)
    (hen : cfg.enabled m = true)
    (hfresh : ∀ x ∈ s.entities, x.id < s.nextId) :
    ((createEntity cfg m r s).1.audit = s.audit ++
      [⟨m, s.nextId, .created, none,
        some (stripExcluded (excludeFor cfg m) (("id", Value.int (Int.ofNat s.nextId)) :: r))⟩]) ∧
    (∃ s2 e2, softDeleteEntity cfg m s.nextId (createEntity cfg m r s).1 = .ok (s2, e2) ∧
      e2.fields = ("id", Value.int (Int.ofNat s.nextId)) :: r ∧
      s2.audit = (createEntity cfg m r s).1.audit ++
        [⟨m, s.nextId, .deleted,
          some (stripExcluded (excludeFor cfg m) (("id", Value.int (Int.ofNat s.nextId)) :: r)),
          none⟩]) ∧
    (∀ (ops : List StoreOp) (s0 : Store), (∀ a ∈ s0.audit, entryOk a) →
      ∀ a ∈ (applyOps cfg s0 ops).audit, entryOk a) := by
  have hfind : findLive (createEntity cfg m r s).1 m s.nextId =
      some ⟨m, s.nextId, ("id", Value.int (Int.ofNat s.nextId)) :: r, false⟩ := by
    have h1 : s.entities.find?
        (fun e => e.model == m && e.id == s.nextId && !e.trashed) = none := by
      rw [List.find?_eq_none]
      intro x hx
      have hlt := hfresh x hx
      have hne : (x.id == s.nextId) = false := by
        simp [Nat.ne_of_lt hlt]
      simp [hne]
    simp [findLive, createEntity, recordAudit, hen, List.find?_append, h1]
  refine ⟨?_, ?_, fun ops s0 h => applyOps_entryOk cfg ops s0 h⟩
  · simp [createEntity, recordAudit, hen]
  · refine ⟨recordAudit cfg m s.nextId .deleted
        (some (("id", Value.int (Int.ofNat s.nextId)) :: r)) none
        (setTrashed (createEntity cfg m r s).1 m s.nextId true),
      ⟨m, s.nextId, ("id", Value.int (Int.ofNat s.nextId)) :: r, false⟩, ?_, rfl, ?_⟩
    · unfold softDeleteEntity
      rw [hfind]
    · simp [recordAudit, hen, setTrashed]

/-! ## Witness instantiations -/

theorem unlisted_fields_dropped_witness :
    (∃ layer, resolveRuleLayer [("title", "string")] none (.assoc [("title", "required")]) =
        .ok layer ∧ ∀ kv ∈ [("title", Value.str "T")], (lookupKey layer kv.1).isSome = true) ∧
    processWrite [("title", "string")] (.assoc [("title", "required")]) none
        (("bogus", Value.str "x") :: [("title", Value.str "T")]) =
      processWrite [("title", "string")] (.assoc [("title", "required")]) none
        [("title", Value.str "T")] :=
  ⟨(unlisted_fields_dropped [("title", "string")] (.assoc [("title", "required")]) none
      [("title", Value.str "T")]).1 [("title", Value.str "T")] rfl,
   (unlisted_fields_dropped [("title", "string")] (.assoc [("title", "required")]) none
      [("title", Value.str "T")]).2 "bogus" (Value.str "x") [("title", "required|string")] rfl rfl⟩

theorem nested_batch_atomicity_witness :
    (executeNestedBatch ⟨50, none⟩ exampleRegistry exampleAuditConfig ["*"] none
      emptyStore exampleBatch).1 = emptyStore ∧
    (executeNestedBatch ⟨50, none⟩ exampleRegistry exampleAuditConfig ["*"] none
      emptyStore exampleBatch).1.entities = emptyStore.entities ∧
    (executeNestedBatch ⟨50, none⟩ exampleRegistry exampleAuditConfig ["*"] none
      emptyStore exampleBatch).1.audit = emptyStore.audit :=
  nested_batch_atomicity ⟨50, none⟩ exampleRegistry exampleAuditConfig ["*"] none
    emptyStore exampleBatch
    (.validationFailed [("title", ["The title field is invalid."])]) (by rfl)

theorem disallowed_params_inert_witness :
    processRead postsDescriptor (fun _ => true) (sanitizeParams postsDescriptor exampleParams)
        [exampleRowA, exampleRowB] =
      processRead postsDescriptor (fun _ => true) exampleParams [exampleRowA, exampleRowB] ∧
    effectiveSorts postsDescriptor [⟨"nope", false⟩] = [postsDescriptor.defaultSort] :=
  ⟨(disallowed_params_inert postsDescriptor (fun _ => true) exampleParams
      [exampleRowA, exampleRowB]).1,
   (disallowed_params_inert postsDescriptor (fun _ => true) exampleParams
      [exampleRowA, exampleRowB]).2.1 [⟨"nope", false⟩] (by decide)⟩

theorem include_auth_rejects_witness :
    ∃ rel, processRead postsDescriptor (fun s => s == "user")
        ⟨[], [], none, none, ["comments"]⟩ [exampleRowA] =
          .error (forbiddenIncludeError rel) ∧
      (fun s : String => s == "user") rel = false ∧
      ∃ j ∈ requestedIncludes postsDescriptor ["comments"], rel ∈ includeSegments j :=
  include_auth_rejects postsDescriptor (fun s => s == "user")
    ⟨[], [], none, none, ["comments"]⟩ [exampleRowA] "comments" (by decide) (by decide)
    "comments" (by decide) (by decide)

theorem audit_round_trip_witness :
    ((createEntity exampleAuditConfig "posts"
        [("title", Value.str "x"), ("password", Value.str "p")] emptyStore).1.audit =
      emptyStore.audit ++ [⟨"posts", emptyStore.nextId, .created, none,
        some (stripExcluded (excludeFor exampleAuditConfig "posts")
          (("id", Value.int (Int.ofNat emptyStore.nextId)) ::
            [("title", Value.str "x"), ("password", Value.str "p")]))⟩]) ∧
    (∃ s2 e2, softDeleteEntity exampleAuditConfig "posts" emptyStore.nextId
        (createEntity exampleAuditConfig "posts"
          [("title", Value.str "x"), ("password", Value.str "p")] emptyStore).1 = .ok (s2, e2) ∧
      e2.fields = ("id", Value.int (Int.ofNat emptyStore.nextId)) ::
        [("title", Value.str "x"), ("password", Value.str "p")] ∧
      s2.audit = (createEntity exampleAuditConfig "posts"
          [("title", Value.str "x"), ("password", Value.str "p")] emptyStore).1.audit ++
        [⟨"posts", emptyStore.nextId, .deleted,
          some (stripExcluded (excludeFor exampleAuditConfig "posts")
            (("id", Value.int (Int.ofNat emptyStore.nextId)) ::
              [("title", Value.str "x"), ("password", Value.str "p")])), none⟩]) :=
  ⟨(audit_round_trip exampleAuditConfig "posts"
      [("title", Value.str "x"), ("password", Value.str "p")] emptyStore rfl
      (by intro x hx; cases hx)).1,
   (audit_round_trip exampleAuditConfig "posts"
      [("title", Value.str "x"), ("password", Value.str "p")] emptyStore rfl
      (by intro x hx; cases hx)).2.1⟩

end Lumina
